import Mathlib

/-!
Verification development for the Piper streaming TTS audio pipeline.

Shallow embedding of the audio-processing core:
  - backend/piper_utils/character_fx.py (signal converter, FX chain, limiter)
  - backend/piper_utils/voice_manager.py (bounded LRU voice cache)
  - backend/app/main.py, route piper_tts_stream (streaming WAV generator)
  - tts/tts_manager.py (playback fallback coordinator)

Bytes are modelled as natural numbers (meaningful range 0..255), 16-bit
samples as integers, floating-point samples as exact rationals.  The
observable integer results of the conversions involved (division by a
power of two on decode, multiplication by 32767 followed by C-style
truncation toward zero on encode) are the same in exact rational
arithmetic as in IEEE float32, because float32 rounding of s*32767.0
for |s| <= 1 never crosses an integer boundary.
-/

namespace PiperFx

/-- Truncation toward zero of a rational, matching numpy's
`astype(np.int16)` C-cast semantics (floor for nonnegative values,
ceiling for negative values). -/
def truncQ (q : ℚ) : ℤ :=
  if 0 ≤ q then ⌊q⌋ else ⌈q⌉

/-- Decode one little-endian signed 16-bit sample from two bytes, as
`np.frombuffer(dtype=np.int16)` does: the unsigned value `b0 + 256*b1`
reinterpreted in two's complement. -/
def decodeSample (b0 b1 : ℕ) : ℤ :=
  if 32768 ≤ (b0 : ℤ) + 256 * (b1 : ℤ) then (b0 : ℤ) + 256 * (b1 : ℤ) - 65536
  else (b0 : ℤ) + 256 * (b1 : ℤ)

/-- Integer samples of a PCM16 byte buffer, decoded pairwise
(little-endian).  Total helper; the fallible entry point is
`pcm16_to_float32`. -/
def pcm16_ints : List ℕ → List ℤ
  | [] => []
  | [_] => []
  | b0 :: b1 :: rest => decodeSample b0 b1 :: pcm16_ints rest

/-- Embedding of `pcm16_to_float32` from character_fx.py:
`np.frombuffer(pcm_bytes, dtype=np.int16).astype(np.float32) / 32768.0`.
`np.frombuffer` raises ValueError when the byte count is not a multiple
of the two-byte element size, modelled as `none`; otherwise each
little-endian int16 sample is divided by 32768. -/
def pcm16_to_float32 : List ℕ → Option (List ℚ)
  | [] => some []
  | [_] => none
  | b0 :: b1 :: rest =>
    (pcm16_to_float32 rest).map (fun xs => (decodeSample b0 b1 : ℚ) / 32768 :: xs)

/-- Float samples of an even-length PCM16 buffer (the value inside
`pcm16_to_float32`'s `some`). -/
def pcm16_floats (bs : List ℕ) : List ℚ :=
  (pcm16_ints bs).map (fun s : ℤ => (s : ℚ) / 32768)

/-- Embedding of `np.clip(audio, -1.0, 1.0)` on one sample. -/
def clampQ (q : ℚ) : ℚ :=
  max (-1) (min 1 q)

/-- One sample of `float32_to_pcm16`: clamp to [-1, 1], scale by 32767,
truncate toward zero to a 16-bit integer. -/
def sampleToInt16 (q : ℚ) : ℤ :=
  truncQ (clampQ q * 32767)

/-- Little-endian byte pair of a signed 16-bit integer: the
two's-complement unsigned representative `s mod 65536`, split into low
and high byte. -/
def encodePair (s : ℤ) : ℕ × ℕ :=
  ((s % 65536).toNat % 256, (s % 65536).toNat / 256)

/-- Little-endian two-byte encoding of a signed 16-bit integer, as
`np.int16(...).tobytes()` produces. -/
def encodeSample (s : ℤ) : List ℕ :=
  [(encodePair s).1, (encodePair s).2]

/-- Embedding of `float32_to_pcm16` from character_fx.py: per sample,
clamp to [-1, 1], multiply by 32767.0, cast to int16 (truncation toward
zero), and serialize little-endian.  (The channel-dimension handling
`audio[0]` is dropped: blocks are modelled one-dimensional, channel
count is always 1.) -/
def float32_to_pcm16 : List ℚ → List ℕ
  | [] => []
  | q :: rest => encodeSample (sampleToInt16 q) ++ float32_to_pcm16 rest

/-- Per-sample effect of the PCM round-trip: magnitude shrinks by one
quantization step (s ↦ s - sign s), because decode divides by 32768
while encode multiplies by 32767 and truncates toward zero. -/
def shrink (s : ℤ) : ℤ :=
  if 0 < s then s - 1 else if s < 0 then s + 1 else 0

/-- Two-at-a-time induction principle for byte lists, matching the
pairwise recursion of the PCM16 decoders. -/
def twoStepInd {P : List ℕ → Prop} (h0 : P []) (h1 : ∀ b, P [b])
    (h2 : ∀ b0 b1 rest, P rest → P (b0 :: b1 :: rest)) : ∀ l, P l
  | [] => h0
  | [b] => h1 b
  | b0 :: b1 :: rest => h2 b0 b1 rest (twoStepInd h0 h1 h2 rest)

/-- One DSP effect stage: the pedalboard plugin's class name together
with the numeric parameters the preset builder passed to its
constructor.  Stage DSP semantics live in the external pedalboard
library and are abstracted as a parameter `rs` of the block processor. -/
structure Stage where
  kind : String
  params : List (String × ℚ)
deriving DecidableEq, Repr

/-- Parameter lookup with default, embedding Python's
`over.get(key, default)` used by every preset builder. -/
def ovGet (over : List (String × ℚ)) (k : String) (d : ℚ) : ℚ :=
  (over.lookup k).getD d

/-- Embedding of `build_wizard_preset`. -/
def build_wizard_preset (over : List (String × ℚ)) : List Stage :=
  [⟨"Gain", [("gain_db", ovGet over "gain_db" (-2))]⟩,
   ⟨"PitchShift", [("semitones", ovGet over "pitch_semitones" (-2))]⟩,
   ⟨"LowpassFilter", [("cutoff_frequency_hz", ovGet over "lowpass_hz" 9000)]⟩,
   ⟨"Reverb", [("room_size", ovGet over "room_size" (90/100)),
               ("wet_level", ovGet over "wet" (28/100)),
               ("dry_level", ovGet over "dry" (72/100)),
               ("damping", ovGet over "damping" (35/100)),
               ("width", ovGet over "width" 1)]⟩,
   ⟨"Compressor", [("threshold_db", ovGet over "thr_db" (-18)),
                   ("ratio", ovGet over "ratio" 3),
                   ("attack_ms", ovGet over "attack_ms" 8),
                   ("release_ms", ovGet over "release_ms" 120)]⟩]

/-- Embedding of `build_robot_preset`. -/
def build_robot_preset (over : List (String × ℚ)) : List Stage :=
  [⟨"HighpassFilter", [("cutoff_frequency_hz", ovGet over "hp_hz" 300)]⟩,
   ⟨"LowpassFilter", [("cutoff_frequency_hz", ovGet over "lp_hz" 3200)]⟩,
   ⟨"Delay", [("delay_seconds", ovGet over "delay_s" (12/1000)),
              ("feedback", ovGet over "feedback" (20/100)),
              ("mix", ovGet over "mix" (25/100))]⟩,
   ⟨"Distortion", [("drive_db", ovGet over "drive_db" 12)]⟩,
   ⟨"Compressor", [("threshold_db", ovGet over "thr_db" (-16)),
                   ("ratio", ovGet over "ratio" 4)]⟩]

/-- Embedding of `build_fairy_preset`. -/
def build_fairy_preset (over : List (String × ℚ)) : List Stage :=
  [⟨"Gain", [("gain_db", ovGet over "gain_db" (-1))]⟩,
   ⟨"PitchShift", [("semitones", ovGet over "pitch_semitones" 4)]⟩,
   ⟨"Chorus", [("rate_hz", ovGet over "chorus_rate_hz" (16/10)),
               ("depth", ovGet over "chorus_depth" (4/10)),
               ("centre_delay_ms", ovGet over "chorus_delay_ms" 7),
               ("feedback", ovGet over "chorus_fb" (15/100)),
               ("mix", ovGet over "chorus_mix" (35/100))]⟩,
   ⟨"HighpassFilter", [("cutoff_frequency_hz", ovGet over "hp_hz" 160)]⟩,
   ⟨"Reverb", [("room_size", ovGet over "room_size" (65/100)),
               ("wet_level", ovGet over "wet" (18/100)),
               ("dry_level", ovGet over "dry" (82/100)),
               ("damping", ovGet over "damping" (30/100)),
               ("width", ovGet over "width" 1)]⟩,
   ⟨"Compressor", [("threshold_db", ovGet over "thr_db" (-20)),
                   ("ratio", ovGet over "ratio" 2)]⟩]

/-- Embedding of `build_goblin_preset`. -/
def build_goblin_preset (over : List (String × ℚ)) : List Stage :=
  [⟨"PitchShift", [("semitones", ovGet over "pitch_semitones" (-4))]⟩,
   ⟨"LowpassFilter", [("cutoff_frequency_hz", ovGet over "lowpass_hz" 6500)]⟩,
   ⟨"Distortion", [("drive_db", ovGet over "drive_db" 18)]⟩,
   ⟨"Compressor", [("threshold_db", ovGet over "thr_db" (-22)),
                   ("ratio", ovGet over "ratio" (35/10))]⟩,
   ⟨"Reverb", [("room_size", ovGet over "room_size" (4/10)),
               ("wet_level", ovGet over "wet" (10/100)),
               ("dry_level", ovGet over "dry" (90/100))]⟩]

/-- Embedding of the `PRESET_BUILDERS` dict. -/
def PRESET_BUILDERS : List (String × (List (String × ℚ) → List Stage)) :=
  [("wizard", build_wizard_preset),
   ("robot", build_robot_preset),
   ("fairy", build_fairy_preset),
   ("goblin", build_goblin_preset)]

/-- Embedding of `build_board`: look the preset name up in
`PRESET_BUILDERS`; an unknown name yields the empty board
`Pedalboard([])`, never an error. -/
def build_board (preset : String) (overrides : List (String × ℚ)) : List Stage :=
  match PRESET_BUILDERS.lookup preset with
  | none => []
  | some builder => builder overrides

/-- Application of a pedalboard to a block: each stage in order
transforms the sample list.  The per-stage DSP semantics `rs` is a
parameter (it lives in the external pedalboard library; when the
library is absent the stubbed board is the identity, i.e.
`rs = fun _ _ x => x`).  The empty board is the identity for every
`rs`, matching both the stub and `Pedalboard([])`. -/
def runBoard (rs : Stage → ℕ → List ℚ → List ℚ) (board : List Stage)
    (sr : ℕ) (x : List ℚ) : List ℚ :=
  board.foldl (fun acc st => rs st sr acc) x

/-- Peak absolute sample value, embedding
`float(np.max(np.abs(out))) if out.size else 0.0` — the empty block is
guarded to 0.0 rather than reducing an empty array. -/
def peakAbs (l : List ℚ) : ℚ :=
  if l.isEmpty then 0 else l.foldl (fun a x => max a |x|) 0

/-- Embedding of `apply_fx_block`: run the board (a board failure in
the source is caught and becomes pass-through, so `rs` is total here),
compute the guarded peak, and if the peak exceeds 1.0 rescale the whole
block so the peak becomes 0.98. -/
def apply_fx_block (rs : Stage → ℕ → List ℚ → List ℚ) (board : List Stage)
    (block : List ℚ) (sr : ℕ) : List ℚ :=
  let out := runBoard rs board sr block
  let peak := peakAbs out
  if 1 < peak then out.map (fun x => x / peak * (98/100)) else out

/-- Stage semantics of the stub classes installed when the pedalboard
library fails to import: every stage is the identity. -/
def stubRs : Stage → ℕ → List ℚ → List ℚ :=
  fun _ _ x => x

/-- Little-endian 2-byte serialization of a 16-bit field. -/
def le16 (n : ℕ) : List ℕ :=
  [n % 256, n / 256 % 256]

/-- Little-endian 4-byte serialization of a 32-bit field. -/
def le32 (n : ℕ) : List ℕ :=
  [n % 256, n / 256 % 256, n / 65536 % 256, n / 16777216 % 256]

/-- Embedding of `_wav_header(sample_rate)` from main.py: the byte
output of Python's `wave` module for a mono 16-bit stream with zero
frames written — RIFF riff-size WAVE, fmt chunk (PCM, 1 channel,
sample rate, byte rate, block align 2, 16 bits), empty data chunk. -/
def wavHeader (sr : ℕ) : List ℕ :=
  [82, 73, 70, 70] ++ le32 36 ++ [87, 65, 86, 69] ++
  [102, 109, 116, 32] ++ le32 16 ++ le16 1 ++ le16 1 ++
  le32 sr ++ le32 (sr * 2) ++ le16 2 ++ le16 16 ++
  [100, 97, 116, 97] ++ le32 0

/-- Loop body of the streaming generator `gen` in `piper_tts_stream`:
consume PCM chunks, convert, process, convert back, tracking the last
converted block; at end of input, process one all-zero block of the
last block's shape (`last_block * 0`) to flush effect tails.  A
malformed (odd-length) chunk raises inside the generator in the source,
ending the stream early with no flush, modelled by returning the frames
emitted so far. -/
def genLoop (rs : Stage → ℕ → List ℚ → List ℚ) (board : List Stage) (sr : ℕ) :
    Option (List ℚ) → List (List ℕ) → List (List ℕ)
  | none, [] => []
  | some lb, [] => [float32_to_pcm16 (apply_fx_block rs board (lb.map (fun _ => 0)) sr)]
  | _, c :: rest =>
    match pcm16_to_float32 c with
    | none => []
    | some f32 =>
      float32_to_pcm16 (apply_fx_block rs board f32 sr) ::
        genLoop rs board sr (some f32) rest

/-- Embedding of the generator `gen` of the `piper_tts_stream` route:
yield the WAV header first, then one processed frame per synthesis
chunk, then the flush frame. -/
def gen (rs : Stage → ℕ → List ℚ → List ℚ) (board : List Stage) (sr : ℕ)
    (chunks : List (List ℕ)) : List (List ℕ) :=
  wavHeader sr :: genLoop rs board sr none chunks

end PiperFx

namespace VoiceCache

/-- Embedding of `_MAX_LOADED` from voice_manager.py. -/
def MAX_LOADED : ℕ := 2

/-- Embedding of the eviction loop of `get_voice`:
`while len(_loaded) > _MAX_LOADED: _loaded.popitem(last=False)` —
pop from the front (least recently used end) of the ordered dict until
at most `MAX_LOADED` entries remain. -/
def evict (l : List String) : List String :=
  if l.length ≤ MAX_LOADED then l else evict l.tail
termination_by l.length
decreasing_by
  simp only [not_le] at *
  cases l with
  | nil => simp_all
  | cons a t => simp

/-- Embedding of the cache discipline of `get_voice` (voice_manager.py)
for plain voice identifiers, with the cache abstracted to its ordered
key list (front = least recently used, as in the `OrderedDict`).  On a
hit the key is moved to the end (`move_to_end`); on a miss the freshly
loaded voice is appended, moved to the end (a no-op for a new key) and
the eviction loop runs.  Returns the new cache state and whether the
request was a hit. -/
def get_voice (cache : List String) (key : String) : List String × Bool :=
  if key ∈ cache then
    (cache.erase key ++ [key], true)
  else
    (evict (cache ++ [key]), false)

/-- Cache state after a sequence of `get_voice` requests, starting from
the module-initial empty `_loaded`. -/
def run (reqs : List String) : List String :=
  reqs.foldl (fun c k => (get_voice c k).1) []

end VoiceCache

namespace TTSMan

/-- Observable events of `TTSManager.speak` (tts_manager.py): an
attempt with the active player type, the logged failure message
`Playback failed with <type> player`, the logged message announcing a
fall back to the next player type, successful completion of playback,
and the terminal `All fallbacks exhausted` message (which names no
player type). -/
inductive Ev where
  | attempt (pt : String)
  | failure (pt : String)
  | fallbackTo (pt : String)
  | success (pt : String)
  | exhausted
deriving DecidableEq, Repr

/-- Embedding of `TTSManager.speak` as the trace of events it produces.
Synthesis and playback are abstracted by `raises : String → Bool`,
telling whether the attempt with a given player type throws.  On an
exception the source logs the failing player type, then: from
"optimized" it switches to "fallback" and recurses, from "fallback" it
switches to "simple" and recurses, and from anything else it logs that
all fallbacks are exhausted. -/
def speak (raises : String → Bool) (pt : String) : List Ev :=
  if raises pt then
    Ev.attempt pt :: Ev.failure pt ::
      (if h1 : pt = "optimized" then
        Ev.fallbackTo "fallback" :: speak raises "fallback"
      else if h2 : pt = "fallback" then
        Ev.fallbackTo "simple" :: speak raises "simple"
      else [Ev.exhausted])
  else [Ev.attempt pt, Ev.success pt]
termination_by (if pt = "optimized" then 2 else if pt = "fallback" then 1 else 0)
decreasing_by
  · subst h1; decide
  · subst h2; decide

end TTSMan

namespace PiperRoute

open PiperFx

/-- Endpoint-level outcomes of the `piper_tts_stream` route: the
HTTPException(503) raised in the import try-block, or an exception that
escapes the handler uncaught (the framework turns it into a generic
internal server error, not a 503). -/
inductive RouteErr where
  | serviceUnavailable
  | internalError
deriving DecidableEq, Repr

/-- Control-flow embedding of the `piper_tts_stream` route (main.py).
`importsOk` models the try-block around the imports of character_fx,
voice_manager and `piper.voice.SynthesisConfig`: when any of them
fails, the route raises HTTPException 503 before anything else runs.
Importantly, absence of the pedalboard library does NOT make the
character_fx import fail — character_fx installs identity stubs — so
`pedalboardOk` only selects the stage semantics (`realRs` vs `stubRs`)
and never produces an error.  `voiceOk` models `get_voice` /
`ensure_voice_local`, which run OUTSIDE the try-block: a voice
acquisition failure propagates uncaught (internal error, not 503).
Either failure happens before `StreamingResponse(gen())`, so an error
result carries no output bytes at all; on success the whole stream of
`gen` is produced. -/
def piper_tts_stream (importsOk pedalboardOk voiceOk : Bool)
    (realRs : Stage → ℕ → List ℚ → List ℚ)
    (preset : String) (overrides : List (String × ℚ)) (sr : ℕ)
    (chunks : List (List ℕ)) : Except RouteErr (List (List ℕ)) :=
  if importsOk = false then
    Except.error RouteErr.serviceUnavailable
  else if voiceOk = false then
    Except.error RouteErr.internalError
  else
    let rs := if pedalboardOk then realRs else stubRs
    Except.ok (gen rs (build_board preset overrides) sr chunks)

end PiperRoute

open PiperFx VoiceCache TTSMan PiperRoute

/-- Bytes below 256 decode to a sample in the signed 16-bit range. -/
theorem decodeSample_range {b0 b1 : ℕ} (h0 : b0 < 256) (h1 : b1 < 256) :
    -32768 ≤ decodeSample b0 b1 ∧ decodeSample b0 b1 ≤ 32767 := by
  unfold decodeSample
  split <;> omega

/-- Clamping leaves a sample that is already in [-1, 1] unchanged. -/
theorem clampQ_of_mem {q : ℚ} (h0 : -1 ≤ q) (h1 : q ≤ 1) : clampQ q = q := by
  unfold clampQ
  rw [min_eq_right h1, max_eq_right h0]

/-- Core round-trip computation: one decoded 16-bit sample, re-encoded,
loses exactly one quantization step of magnitude, because decoding
divides by 32768 while encoding multiplies by 32767 and truncates
toward zero. -/
theorem sampleToInt16_roundtrip {s : ℤ} (hlo : -32768 ≤ s) (hhi : s ≤ 32767) :
    sampleToInt16 ((s : ℚ) / 32768) = shrink s := by
  have hsl : (-32768 : ℚ) ≤ (s : ℚ) := by exact_mod_cast hlo
  have hsh : (s : ℚ) ≤ 32767 := by exact_mod_cast hhi
  have hq0 : (-1 : ℚ) ≤ (s : ℚ) / 32768 := by
    rw [le_div_iff (by norm_num : (0:ℚ) < 32768)]
    linarith
  have hq1 : (s : ℚ) / 32768 ≤ 1 := by
    rw [div_le_iff (by norm_num : (0:ℚ) < 32768)]
    linarith
  unfold sampleToInt16
  rw [clampQ_of_mem hq0 hq1]
  have hval : (s : ℚ) / 32768 * 32767 = (s : ℚ) * 32767 / 32768 := by ring
  rw [hval]
  unfold truncQ shrink
  rcases lt_trichotomy s 0 with hneg | hzero | hpos
  · have hs1 : (s : ℚ) ≤ -1 := by exact_mod_cast (show s ≤ -1 by omega)
    have hql : (s : ℚ) * 32767 / 32768 < 0 := by
      apply div_neg_of_neg_of_pos _ (by norm_num)
      nlinarith
    rw [if_neg (not_le.mpr hql), if_neg (by omega : ¬ 0 < s), if_pos hneg]
    rw [Int.ceil_eq_iff]
    refine ⟨?_, ?_⟩
    · push_cast
      rw [lt_div_iff (by norm_num : (0:ℚ) < 32768)]
      linarith
    · push_cast
      rw [div_le_iff (by norm_num : (0:ℚ) < 32768)]
      linarith
  · subst hzero
    norm_num
  · have hs1 : (1 : ℚ) ≤ (s : ℚ) := by exact_mod_cast hpos
    have hq : (0 : ℚ) ≤ (s : ℚ) * 32767 / 32768 := by
      apply div_nonneg _ (by norm_num)
      nlinarith
    rw [if_pos hq, if_pos hpos]
    rw [Int.floor_eq_iff]
    refine ⟨?_, ?_⟩
    · push_cast
      rw [le_div_iff (by norm_num : (0:ℚ) < 32768)]
      linarith
    · push_cast
      rw [div_lt_iff (by norm_num : (0:ℚ) < 32768)]
      linarith

/-- On even-length input the decoder succeeds with the per-sample
divisions by 32768. -/
theorem pcm16_to_float32_even :
    ∀ bs : List ℕ, Even bs.length → pcm16_to_float32 bs = some (pcm16_floats bs) := by
  refine twoStepInd ?_ ?_ ?_
  · intro _
    simp [pcm16_to_float32, pcm16_floats, pcm16_ints]
  · intro b h
    simp at h
  · intro b0 b1 rest ih h
    have hrest : Even rest.length := by
      rcases h with ⟨k, hk⟩
      simp only [List.length_cons] at hk
      exact ⟨k - 1, by omega⟩
    simp [pcm16_to_float32, pcm16_floats, pcm16_ints, ih hrest]

/-- On odd-length input the decoder fails (numpy raises for a buffer
that is not a multiple of the element size). -/
theorem pcm16_to_float32_odd :
    ∀ bs : List ℕ, Odd bs.length → pcm16_to_float32 bs = none := by
  refine twoStepInd ?_ ?_ ?_
  · intro h
    simp at h
  · intro b _
    rfl
  · intro b0 b1 rest ih h
    have hrest : Odd rest.length := by
      rcases h with ⟨k, hk⟩
      simp only [List.length_cons] at hk
      exact ⟨k - 1, by omega⟩
    simp [pcm16_to_float32, ih hrest]

/-- A successful decode always yields the pairwise sample values. -/
theorem pcm16_to_float32_some :
    ∀ {bs : List ℕ} {xs : List ℚ}, pcm16_to_float32 bs = some xs → xs = pcm16_floats bs := by
  have key : ∀ bs : List ℕ, ∀ xs : List ℚ,
      pcm16_to_float32 bs = some xs → xs = pcm16_floats bs := by
    refine twoStepInd ?_ ?_ ?_
    · intro xs h
      simp [pcm16_to_float32] at h
      simp [h, pcm16_floats, pcm16_ints]
    · intro b xs h
      simp [pcm16_to_float32] at h
    · intro b0 b1 rest ih xs h
      simp only [pcm16_to_float32, Option.map_eq_some'] at h
      rcases h with ⟨ys, hys, hxs⟩
      subst hxs
      rw [ih ys hys]
      simp [pcm16_floats, pcm16_ints]
  exact fun {bs xs} h => key bs xs h

/-- C9: odd-length PCM byte buffers are rejected as malformed input
(`np.frombuffer` raises, modelled as `none`), while even-length buffers
decode to each little-endian signed 16-bit sample divided by 32768. -/
theorem c9_odd_length_rejected :
    (∀ bs : List ℕ, Odd bs.length → pcm16_to_float32 bs = none) ∧
    (∀ bs : List ℕ, Even bs.length →
      pcm16_to_float32 bs = some ((pcm16_ints bs).map (fun s : ℤ => (s : ℚ) / 32768))) := by
  exact ⟨pcm16_to_float32_odd, fun bs h => pcm16_to_float32_even bs h⟩

/-- Witness for C9 at concrete inputs: a lone trailing byte is
rejected, a two-byte buffer decodes. -/
theorem c9_odd_length_witness :
    pcm16_to_float32 [7] = none ∧
    pcm16_to_float32 [1, 0] = some ((pcm16_ints [1, 0]).map (fun s : ℤ => (s : ℚ) / 32768)) := by
  constructor
  · exact c9_odd_length_rejected.1 [7] (by decide)
  · exact c9_odd_length_rejected.2 [1, 0] (by decide)

/-- C1 counterexample: the byte buffer [1, 0] (the single sample 1) is
a valid even-length PCM16 buffer, but converting to float and back
yields [0, 0], not [1, 0]: decoding divides by 32768, encoding
multiplies by 32767 and truncates toward zero, so the sample 1 becomes
32767/32768 and truncates to 0. -/
theorem c1_roundtrip_counterexample :
    pcm16_to_float32 [1, 0] = some [(1 : ℚ) / 32768] ∧
    float32_to_pcm16 [(1 : ℚ) / 32768] = [0, 0] ∧
    ([0, 0] : List ℕ) ≠ [1, 0] := by
  refine ⟨?_, ?_, by decide⟩
  · norm_num [pcm16_to_float32, decodeSample]
  · have h : sampleToInt16 ((1 : ℚ) / 32768) = shrink 1 := by
      have h2 := sampleToInt16_roundtrip (s := 1) (by norm_num) (by norm_num)
      simpa using h2
    simp only [float32_to_pcm16, h]
    norm_num [shrink, encodeSample, encodePair]

/-- The float-and-back round trip of an even byte buffer, sample by
sample: every decoded 16-bit sample is re-encoded with its magnitude
reduced by one quantization step. -/
theorem float32_to_pcm16_floats :
    ∀ bs : List ℕ, (∀ b ∈ bs, b < 256) →
    float32_to_pcm16 (pcm16_floats bs) =
      ((pcm16_ints bs).map (fun s => encodeSample (shrink s))).join := by
  refine twoStepInd ?_ ?_ ?_
  · intro _
    rfl
  · intro b _
    rfl
  · intro b0 b1 rest ih h
    have h0 : b0 < 256 := h b0 (by simp)
    have h1 : b1 < 256 := h b1 (by simp)
    have hrest : ∀ b ∈ rest, b < 256 := fun b hb => h b (by simp [hb])
    obtain ⟨hlo, hhi⟩ := decodeSample_range h0 h1
    have hstep := sampleToInt16_roundtrip hlo hhi
    have hints : pcm16_ints (b0 :: b1 :: rest) = decodeSample b0 b1 :: pcm16_ints rest := rfl
    have hfl : pcm16_floats (b0 :: b1 :: rest) =
        ((decodeSample b0 b1 : ℚ) / 32768) :: pcm16_floats rest := by
      unfold pcm16_floats
      rw [hints, List.map_cons]
    rw [hfl, hints, List.map_cons]
    show encodeSample (sampleToInt16 ((decodeSample b0 b1 : ℚ) / 32768)) ++
        float32_to_pcm16 (pcm16_floats rest) =
      (encodeSample (shrink (decodeSample b0 b1)) ::
        (pcm16_ints rest).map (fun s => encodeSample (shrink s))).join
    rw [hstep, ih hrest]
    rfl

/-- C1 amended: for every valid even-length PCM16 byte buffer,
float32_to_pcm16 (pcm16_to_float32 x) does NOT reproduce x exactly;
instead each decoded sample s comes back as s - sign s (magnitude
shrunk by one quantization step), so the round trip is exact only where
that shrink is invisible (zero samples). -/
theorem c1_roundtrip_shrinks_each_sample (bs : List ℕ) (xs : List ℚ)
    (hbytes : ∀ b ∈ bs, b < 256) (hdec : pcm16_to_float32 bs = some xs) :
    float32_to_pcm16 xs = ((pcm16_ints bs).map (fun s => encodeSample (shrink s))).join := by
  rw [pcm16_to_float32_some hdec]
  exact float32_to_pcm16_floats bs hbytes

/-- Witness for the amended C1 at the concrete buffer [37, 0]. -/
theorem c1_roundtrip_shrinks_witness :
    float32_to_pcm16 [(37 : ℚ) / 32768] =
      ((pcm16_ints [37, 0]).map (fun s => encodeSample (shrink s))).join := by
  exact c1_roundtrip_shrinks_each_sample [37, 0] [(37 : ℚ) / 32768] (by decide)
    (by norm_num [pcm16_to_float32, decodeSample])

/-- Every output of the clamp-scale-truncate encoder stays inside the
16-bit range; in fact inside [-32767, 32767]. -/
theorem sampleToInt16_range (q : ℚ) :
    -32767 ≤ sampleToInt16 q ∧ sampleToInt16 q ≤ 32767 := by
  have hc0 : (-1 : ℚ) ≤ clampQ q := le_max_left _ _
  have hc1 : clampQ q ≤ 1 := max_le (by norm_num) (min_le_left _ _)
  have hy0 : (-32767 : ℚ) ≤ clampQ q * 32767 := by nlinarith
  have hy1 : clampQ q * 32767 ≤ 32767 := by nlinarith
  unfold sampleToInt16 truncQ
  split
  case isTrue hpos =>
    constructor
    · have h2 : (0 : ℤ) ≤ ⌊clampQ q * 32767⌋ := Int.le_floor.mpr (by exact_mod_cast hpos)
      omega
    · have h2 : (⌊clampQ q * 32767⌋ : ℚ) ≤ 32767 := le_trans (Int.floor_le _) hy1
      exact_mod_cast h2
  case isFalse hneg =>
    push_neg at hneg
    constructor
    · have h2 : (-32767 : ℚ) ≤ (⌈clampQ q * 32767⌉ : ℚ) := le_trans hy0 (Int.le_ceil _)
      exact_mod_cast h2
    · have h2 : ⌈clampQ q * 32767⌉ ≤ (0 : ℤ) :=
        Int.ceil_le.mpr (by exact_mod_cast le_of_lt hneg)
      omega

/-- Serializing a 16-bit sample little-endian and decoding the two
bytes back is the identity on the signed 16-bit range: no value is ever
produced through wraparound. -/
theorem decode_encodePair {s : ℤ} (hlo : -32768 ≤ s) (hhi : s ≤ 32767) :
    decodeSample (encodePair s).1 (encodePair s).2 = s := by
  simp only [decodeSample, encodePair]
  split <;> omega

/-- C7: every sample array, including one with values outside
[-1, 1], is clamped silently: each encoded sample is a valid signed
16-bit value in [-32767, 32767], and decoding its two little-endian
bytes gives the same value back — never a wrapped one. -/
theorem c7_clamping_no_wraparound (xs : List ℚ) (s : ℤ)
    (hmem : s ∈ xs.map sampleToInt16) :
    (-32767 ≤ s ∧ s ≤ 32767) ∧
    decodeSample (encodePair s).1 (encodePair s).2 = s := by
  rcases List.mem_map.mp hmem with ⟨q, _, rfl⟩
  obtain ⟨hlo, hhi⟩ := sampleToInt16_range q
  exact ⟨⟨hlo, hhi⟩, decode_encodePair (by omega) hhi⟩

/-- Witness for C7 at the out-of-range sample 2.0, which clamps to
full scale 32767. -/
theorem c7_clamping_witness :
    (-32767 ≤ (32767 : ℤ) ∧ (32767 : ℤ) ≤ 32767) ∧
    decodeSample (encodePair 32767).1 (encodePair 32767).2 = 32767 := by
  refine c7_clamping_no_wraparound [(2 : ℚ)] 32767 ?_
  have h : sampleToInt16 (2 : ℚ) = 32767 := by
    have hc : clampQ (2 : ℚ) = 1 := by norm_num [clampQ]
    unfold sampleToInt16
    rw [hc]
    norm_num [truncQ]
  simp [h]

/-- Zeta-reduced form of `apply_fx_block`. -/
theorem apply_fx_block_eq (rs : Stage → ℕ → List ℚ → List ℚ) (board : List Stage)
    (block : List ℚ) (sr : ℕ) :
    apply_fx_block rs board block sr =
      if 1 < peakAbs (runBoard rs board sr block) then
        (runBoard rs board sr block).map
          (fun x => x / peakAbs (runBoard rs board sr block) * (98/100))
      else runBoard rs board sr block := rfl

/-- The max-abs fold never drops below its accumulator. -/
theorem le_foldl_max_init (l : List ℚ) : ∀ a : ℚ, a ≤ l.foldl (fun a x => max a |x|) a := by
  induction l with
  | nil => intro a; simp
  | cons y t ih =>
    intro a
    simp only [List.foldl_cons]
    exact le_trans (le_max_left a |y|) (ih _)

/-- The max-abs fold dominates every element's absolute value. -/
theorem abs_le_foldl_max {l : List ℚ} {x : ℚ} (hx : x ∈ l) :
    ∀ a : ℚ, |x| ≤ l.foldl (fun a x => max a |x|) a := by
  induction l with
  | nil => cases hx
  | cons y t ih =>
    intro a
    simp only [List.foldl_cons]
    rcases List.mem_cons.mp hx with h | h
    · subst h
      exact le_trans (le_max_right a |x|) (le_foldl_max_init t _)
    · exact ih h _

/-- The max-abs fold is bounded by any bound on the accumulator and
the elements. -/
theorem foldl_max_le {l : List ℚ} : ∀ {a c : ℚ}, a ≤ c → (∀ x ∈ l, |x| ≤ c) →
    l.foldl (fun a x => max a |x|) a ≤ c := by
  induction l with
  | nil => intro a c ha _; simpa using ha
  | cons y t ih =>
    intro a c ha h
    simp only [List.foldl_cons]
    exact ih (max_le ha (h y (by simp))) (fun x hx => h x (by simp [hx]))

/-- The max-abs fold is either its accumulator or attained by some
element. -/
theorem foldl_max_attained (l : List ℚ) : ∀ a : ℚ,
    l.foldl (fun a x => max a |x|) a = a ∨
    ∃ x ∈ l, l.foldl (fun a x => max a |x|) a = |x| := by
  induction l with
  | nil => intro a; left; rfl
  | cons y t ih =>
    intro a
    simp only [List.foldl_cons]
    rcases ih (max a |y|) with h | ⟨x, hx, hfx⟩
    · rcases max_choice a |y| with hm | hm
      · left; rw [h, hm]
      · right; exact ⟨y, by simp, by rw [h, hm]⟩
    · right; exact ⟨x, by simp [hx], hfx⟩

/-- Every element's absolute value is at most the guarded peak. -/
theorem abs_le_peakAbs {l : List ℚ} {x : ℚ} (hx : x ∈ l) : |x| ≤ peakAbs l := by
  unfold peakAbs
  rw [if_neg (by simp [List.isEmpty_iff]; rintro rfl; cases hx)]
  exact abs_le_foldl_max hx 0

/-- The guarded peak is bounded by any nonnegative bound on the
elements. -/
theorem peakAbs_le {l : List ℚ} {c : ℚ} (hc : 0 ≤ c) (h : ∀ x ∈ l, |x| ≤ c) :
    peakAbs l ≤ c := by
  unfold peakAbs
  split
  · exact hc
  · exact foldl_max_le hc h

/-- A nonzero peak is attained by some element of the block. -/
theorem peakAbs_attained {l : List ℚ} (hne : l ≠ []) :
    peakAbs l = 0 ∨ ∃ x ∈ l, peakAbs l = |x| := by
  unfold peakAbs
  rw [if_neg (by simpa [List.isEmpty_iff] using hne)]
  exact foldl_max_attained l 0

/-- C2 amended: for every effect chain (any stage semantics `rs`, any
board) and every input block, the peak of the block processor's output
is at most 1.0 — not 0.98 + epsilon, since a chain output whose peak
lies in (0.98, 1.0] passes through the limiter untouched; whenever the
raw chain output peak exceeds 1.0, the limiter rescales the block so
the output peak is exactly 0.98. -/
theorem c2_limiter_peak_le_one (rs : Stage → ℕ → List ℚ → List ℚ)
    (board : List Stage) (block : List ℚ) (sr : ℕ) :
    peakAbs (apply_fx_block rs board block sr) ≤ 1 ∧
    (1 < peakAbs (runBoard rs board sr block) →
      peakAbs (apply_fx_block rs board block sr) = 98/100) := by
  rw [apply_fx_block_eq]
  by_cases hp : 1 < peakAbs (runBoard rs board sr block)
  · rw [if_pos hp]
    set out := runBoard rs board sr block with hout
    have hp0 : 0 < peakAbs out := lt_trans one_pos hp
    have hmax : ∀ y ∈ out.map (fun x => x / peakAbs out * (98/100)), |y| ≤ 98/100 := by
      intro y hy
      rcases List.mem_map.mp hy with ⟨x, hx, rfl⟩
      rw [abs_mul, abs_div, abs_of_pos hp0, abs_of_pos (by norm_num : (0:ℚ) < 98/100)]
      have hxle : |x| ≤ peakAbs out := abs_le_peakAbs hx
      have hdiv : |x| / peakAbs out ≤ 1 := (div_le_one hp0).mpr hxle
      nlinarith [abs_nonneg x]
    have hle : peakAbs (out.map (fun x => x / peakAbs out * (98/100))) ≤ 98/100 :=
      peakAbs_le (by norm_num) hmax
    refine ⟨le_trans hle (by norm_num), fun _ => ?_⟩
    have hne : out ≠ [] := by
      intro h
      rw [h] at hp
      norm_num [peakAbs] at hp
    rcases peakAbs_attained hne with h0 | ⟨x, hx, hpx⟩
    · rw [h0] at hp
      norm_num at hp
    · have habs : |x / peakAbs out * (98/100)| = 98/100 := by
        rw [abs_mul, abs_div, abs_of_pos hp0, abs_of_pos (by norm_num : (0:ℚ) < 98/100)]
        rw [← hpx, div_self (ne_of_gt hp0), one_mul]
      have hmem2 : x / peakAbs out * (98/100) ∈
          out.map (fun x => x / peakAbs out * (98/100)) :=
        List.mem_map_of_mem _ hx
      have hge := abs_le_peakAbs hmem2
      rw [habs] at hge
      linarith
  · rw [if_neg hp]
    push_neg at hp
    exact ⟨hp, fun h => absurd h (not_lt.mpr hp)⟩

/-- C2 counterexample: a full-scale block [1.0] through the empty chain
keeps peak 1.0 — the limiter does not engage at peak ≤ 1.0 — and 1.0
exceeds 0.98 plus float32 machine epsilon (2^-23). -/
theorem c2_limiter_counterexample :
    peakAbs (apply_fx_block stubRs [] [1] 22050) = 1 ∧
    ¬ (peakAbs (apply_fx_block stubRs [] [1] 22050) ≤ 98/100 + 1/2^23) := by
  have h : apply_fx_block stubRs [] [1] 22050 = [1] := by
    rw [apply_fx_block_eq]
    norm_num [runBoard, stubRs, peakAbs]
  rw [h]
  norm_num [peakAbs]

/-- Witness for the amended C2: a block [2.0] through the empty chain
triggers the limiter (raw peak 2 > 1), and the output peak is exactly
0.98. -/
theorem c2_limiter_witness :
    peakAbs (apply_fx_block stubRs [] [2] 22050) ≤ 1 ∧
    peakAbs (apply_fx_block stubRs [] [2] 22050) = 98/100 := by
  refine ⟨(c2_limiter_peak_le_one stubRs [] [2] 22050).1,
    (c2_limiter_peak_le_one stubRs [] [2] 22050).2 ?_⟩
  norm_num [runBoard, stubRs, peakAbs]

/-- C4 amended: building a board from an unknown preset name yields the
empty chain (never an error), and processing through it returns the
block unchanged for every block whose peak does not exceed full scale
1.0 (for blocks with peak above 1.0 the safety limiter of
`apply_fx_block` still rescales, so literal identity on ALL blocks
fails). -/
theorem c4_unknown_preset_passthrough (rs : Stage → ℕ → List ℚ → List ℚ)
    (over : List (String × ℚ)) (block : List ℚ) (sr : ℕ)
    (hpeak : peakAbs block ≤ 1) :
    build_board "nonexistent-preset" over = [] ∧
    apply_fx_block rs (build_board "nonexistent-preset" over) block sr = block := by
  have hb : build_board "nonexistent-preset" over = [] := rfl
  refine ⟨hb, ?_⟩
  rw [hb, apply_fx_block_eq]
  have hrun : runBoard rs [] sr block = block := rfl
  rw [hrun, if_neg (not_lt.mpr hpeak)]

/-- C4 counterexample: the unknown-preset chain is NOT a no-op on the
block [2.0] — the limiter rescales it to [0.98]. -/
theorem c4_unknown_preset_counterexample :
    apply_fx_block stubRs (build_board "nonexistent-preset" []) [2] 22050 = [49/50] ∧
    ([49/50] : List ℚ) ≠ [2] := by
  constructor
  · have hb : build_board "nonexistent-preset" [] = [] := rfl
    rw [hb, apply_fx_block_eq]
    norm_num [runBoard, stubRs, peakAbs]
  · intro h
    have h2 : (49/50 : ℚ) = 2 := List.head_eq_of_cons_eq h
    norm_num at h2

/-- Witness for the amended C4 at the in-range block [1/2]. -/
theorem c4_unknown_preset_witness :
    build_board "nonexistent-preset" [] = [] ∧
    apply_fx_block stubRs (build_board "nonexistent-preset" []) [1/2] 22050 = [1/2] := by
  refine c4_unknown_preset_passthrough stubRs [] [1/2] 22050 ?_
  have habs : |(1/2 : ℚ)| = 1/2 := abs_of_pos (by norm_num)
  norm_num [peakAbs, habs]

/-- C10: on an empty block the peak computation takes the guarded zero
branch (`if out.size else 0.0`) instead of reducing an empty array, the
limiter does not engage, and the empty block comes back unchanged; the
embedding is total, matching the absence of any raise in the source.
The hypothesis pins the chain semantics to preserve emptiness, which
both the stub board and `Pedalboard([])` do. -/
theorem c10_empty_block_total (rs : Stage → ℕ → List ℚ → List ℚ)
    (board : List Stage) (sr : ℕ) (h : runBoard rs board sr [] = []) :
    apply_fx_block rs board [] sr = [] ∧ peakAbs ([] : List ℚ) = 0 := by
  rw [apply_fx_block_eq, h]
  exact ⟨by norm_num [peakAbs], rfl⟩

/-- Witness for C10 with the stub chain. -/
theorem c10_empty_block_witness :
    apply_fx_block stubRs [] [] 22050 = [] ∧ peakAbs ([] : List ℚ) = 0 :=
  c10_empty_block_total stubRs [] 22050 rfl

/-- The last element of a mapped list, with mapped default. -/
theorem getLastD_map (f : List ℕ → List ℚ) :
    ∀ (l : List (List ℕ)) (c : List ℕ),
    (l.map f).getLastD (f c) = f ((c :: l).getLastD []) := by
  intro l
  induction l with
  | nil =>
    intro c
    simp [List.getLastD_cons]
  | cons d t ih =>
    intro c
    rw [List.map_cons, List.getLastD_cons, ih d, List.getLastD_cons, List.getLastD_cons,
      List.getLastD_cons]

/-- Closed form of the generator loop when a real block has already
been seen: one processed frame per remaining chunk, then exactly one
flush frame built from an all-zero block shaped like the last real
block. -/
theorem genLoop_some (rs : Stage → ℕ → List ℚ → List ℚ) (board : List Stage) (sr : ℕ) :
    ∀ (chunks : List (List ℕ)) (lb : List ℚ),
    (∀ c ∈ chunks, Even c.length) →
    genLoop rs board sr (some lb) chunks =
      chunks.map (fun c => float32_to_pcm16 (apply_fx_block rs board (pcm16_floats c) sr)) ++
      [float32_to_pcm16 (apply_fx_block rs board
        (((chunks.map pcm16_floats).getLastD lb).map (fun _ => (0:ℚ))) sr)] := by
  intro chunks
  induction chunks with
  | nil =>
    intro lb _
    simp [genLoop]
  | cons c rest ih =>
    intro lb h
    have hc : Even c.length := h c (by simp)
    have hrest : ∀ c2 ∈ rest, Even c2.length := fun c2 h2 => h c2 (by simp [h2])
    rw [genLoop, pcm16_to_float32_even c hc]
    simp only [List.map_cons, List.getLastD_cons]
    rw [ih (pcm16_floats c) hrest]
    simp

/-- C3: for a non-empty even-chunk synthesis sequence of n blocks, the
emitted stream is exactly one 44-byte WAV header first, then n
processed frames in order, then one flush frame computed from an
all-zero block of the same length as the last real block — n+2 items
in total and no further header anywhere in the stream. -/
theorem c3_streaming_framing (rs : Stage → ℕ → List ℚ → List ℚ)
    (board : List Stage) (sr : ℕ) (chunks : List (List ℕ))
    (h1 : chunks ≠ []) (h2 : ∀ c ∈ chunks, Even c.length) :
    gen rs board sr chunks =
      wavHeader sr ::
        (chunks.map (fun c => float32_to_pcm16 (apply_fx_block rs board (pcm16_floats c) sr)) ++
         [float32_to_pcm16 (apply_fx_block rs board
            (List.replicate (pcm16_floats (chunks.getLastD [])).length (0:ℚ)) sr)]) ∧
    (wavHeader sr).length = 44 ∧
    (gen rs board sr chunks).length = chunks.length + 2 := by
  rcases chunks with _ | ⟨c, rest⟩
  · exact absurd rfl h1
  have hc : Even c.length := h2 c (by simp)
  have hrest : ∀ c2 ∈ rest, Even c2.length := fun c2 h => h2 c2 (by simp [h])
  have hmain : gen rs board sr (c :: rest) =
      wavHeader sr ::
        ((c :: rest).map
            (fun c => float32_to_pcm16 (apply_fx_block rs board (pcm16_floats c) sr)) ++
         [float32_to_pcm16 (apply_fx_block rs board
            (List.replicate (pcm16_floats ((c :: rest).getLastD [])).length (0:ℚ)) sr)]) := by
    unfold gen
    rw [genLoop, pcm16_to_float32_even c hc]
    simp only []
    rw [genLoop_some rs board sr rest (pcm16_floats c) hrest]
    rw [getLastD_map pcm16_floats rest c]
    simp [List.map_const']
  refine ⟨hmain, by simp [wavHeader, le16, le32], ?_⟩
  rw [hmain]
  simp

/-- Witness for C3: a 3-block sequence of two-byte chunks through the
empty chain yields the header plus 4 frames (3 real + 1 flush). -/
theorem c3_streaming_framing_witness :
    gen stubRs [] 22050 [[0, 0], [0, 0], [0, 0]] =
      wavHeader 22050 ::
        (([[0, 0], [0, 0], [0, 0]] : List (List ℕ)).map
            (fun c => float32_to_pcm16 (apply_fx_block stubRs [] (pcm16_floats c) 22050)) ++
         [float32_to_pcm16 (apply_fx_block stubRs []
            (List.replicate
              (pcm16_floats (([[0, 0], [0, 0], [0, 0]] : List (List ℕ)).getLastD [])).length
              (0:ℚ)) 22050)]) ∧
    (wavHeader 22050).length = 44 ∧
    (gen stubRs [] 22050 [[0, 0], [0, 0], [0, 0]]).length = 5 := by
  exact c3_streaming_framing stubRs [] 22050 [[0, 0], [0, 0], [0, 0]]
    (by decide) (by decide)

/-- The eviction loop always leaves at most `MAX_LOADED` entries. -/
theorem evict_length_le : ∀ (n : ℕ) (l : List String), l.length ≤ n →
    (evict l).length ≤ MAX_LOADED := by
  intro n
  induction n with
  | zero =>
    intro l h
    rw [evict]
    rw [if_pos (by simp [MAX_LOADED]; omega)]
    simp [MAX_LOADED]
    omega
  | succ n ih =>
    intro l h
    rw [evict]
    split
    · assumption
    · apply ih
      cases l with
      | nil => simp
      | cons a t => simp only [List.tail_cons]; simp at h ⊢; omega

/-- One `get_voice` step keeps the cache within the bound. -/
theorem get_voice_length_le {cache : List String} (key : String)
    (h : cache.length ≤ MAX_LOADED) :
    ((get_voice cache key).1).length ≤ MAX_LOADED := by
  unfold get_voice
  split
  · next hmem =>
    simp only
    rw [List.length_append, List.length_erase_of_mem hmem]
    simp only [List.length_singleton]
    have : cache.length ≠ 0 := by
      intro h0
      rw [List.length_eq_zero] at h0
      subst h0
      cases hmem
    omega
  · exact evict_length_le (cache ++ [key]).length _ le_rfl

/-- C5: starting from the empty cache, any request sequence leaves at
most 2 voices resident; the concrete A, B, C scenario evicts the
least-recently-used A, leaves [B, C] resident, and a follow-up request
for A is a miss (`false`) that reloads A and evicts B. -/
theorem c5_cache_bound_lru :
    (∀ reqs : List String, (run reqs).length ≤ MAX_LOADED) ∧
    run ["A", "B", "C"] = ["B", "C"] ∧
    get_voice (run ["A", "B", "C"]) "A" = (["C", "A"], false) := by
  have e1 : get_voice [] "A" = (["A"], false) := by
    rw [get_voice, if_neg (by simp)]
    simp only [List.nil_append]
    rw [evict, if_pos (by simp [MAX_LOADED])]
  have e2 : get_voice ["A"] "B" = (["A", "B"], false) := by
    rw [get_voice, if_neg (by simp)]
    simp only [List.cons_append, List.nil_append]
    rw [evict, if_pos (by simp [MAX_LOADED])]
  have e3 : get_voice ["A", "B"] "C" = (["B", "C"], false) := by
    rw [get_voice, if_neg (by simp)]
    simp only [List.cons_append, List.nil_append]
    rw [evict, if_neg (by simp [MAX_LOADED])]
    rw [List.tail_cons, evict, if_pos (by simp [MAX_LOADED])]
  have e4 : get_voice ["B", "C"] "A" = (["C", "A"], false) := by
    rw [get_voice, if_neg (by simp)]
    simp only [List.cons_append, List.nil_append]
    rw [evict, if_neg (by simp [MAX_LOADED])]
    rw [List.tail_cons, evict, if_pos (by simp [MAX_LOADED])]
  have hrun : run ["A", "B", "C"] = ["B", "C"] := by
    simp [run, e1, e2, e3]
  refine ⟨?_, hrun, by rw [hrun, e4]⟩
  have key : ∀ (reqs : List String) (cache : List String), cache.length ≤ MAX_LOADED →
      (reqs.foldl (fun c k => (get_voice c k).1) cache).length ≤ MAX_LOADED := by
    intro reqs
    induction reqs with
    | nil => intro cache h; simpa using h
    | cons r t ih =>
      intro cache h
      simp only [List.foldl_cons]
      exact ih _ (get_voice_length_le r h)
  intro reqs
  exact key reqs [] (by simp [MAX_LOADED])

/-- C6: when the primary (optimized) strategy raises, the coordinator
tries strategies strictly in the order optimized → fallback (external
process) → simple, reports success exactly at the first strategy that
does not raise, and when all three raise, the last failure reported
names the last strategy attempted ("simple"), followed by the terminal
exhausted message. -/
theorem c6_fallback_order (raises : String → Bool)
    (hopt : raises "optimized" = true) :
    (raises "fallback" = false →
      speak raises "optimized" =
        [Ev.attempt "optimized", Ev.failure "optimized", Ev.fallbackTo "fallback",
         Ev.attempt "fallback", Ev.success "fallback"]) ∧
    (raises "fallback" = true → raises "simple" = false →
      speak raises "optimized" =
        [Ev.attempt "optimized", Ev.failure "optimized", Ev.fallbackTo "fallback",
         Ev.attempt "fallback", Ev.failure "fallback", Ev.fallbackTo "simple",
         Ev.attempt "simple", Ev.success "simple"]) ∧
    (raises "fallback" = true → raises "simple" = true →
      speak raises "optimized" =
        [Ev.attempt "optimized", Ev.failure "optimized", Ev.fallbackTo "fallback",
         Ev.attempt "fallback", Ev.failure "fallback", Ev.fallbackTo "simple",
         Ev.attempt "simple", Ev.failure "simple", Ev.exhausted]) := by
  have hne1 : ("fallback" : String) ≠ "optimized" := by decide
  have hne2 : ("simple" : String) ≠ "optimized" := by decide
  have hne3 : ("simple" : String) ≠ "fallback" := by decide
  refine ⟨?_, ?_, ?_⟩
  · intro hfb
    rw [speak, speak]
    simp [hopt, hfb, hne1]
  · intro hfb hsim
    rw [speak, speak]
    simp [hopt, hfb, hne1, hne2, hne3]
    rw [speak]
    simp [hsim]
  · intro hfb hsim
    rw [speak, speak]
    simp [hopt, hfb, hne1, hne2, hne3]
    rw [speak]
    simp [hsim, hne2, hne3]

/-- Witness for C6 with strategies that always raise: the full
degradation trace ends with the failure of "simple" and exhaustion. -/
theorem c6_fallback_order_witness :
    speak (fun _ => true) "optimized" =
      [Ev.attempt "optimized", Ev.failure "optimized", Ev.fallbackTo "fallback",
       Ev.attempt "fallback", Ev.failure "fallback", Ev.fallbackTo "simple",
       Ev.attempt "simple", Ev.failure "simple", Ev.exhausted] :=
  (c6_fallback_order (fun _ => true) rfl).2.2 rfl rfl

/-- C8 amended: a 503 (ServiceUnavailable) is raised, before any output
bytes, exactly when the try-block imports fail (e.g. piper-tts
missing); a voice-acquisition failure happens outside that try-block
and so propagates as an uncaught internal error — still before any
bytes, but NOT as a 503; and absence of the pedalboard DSP library
alone causes no error at all — the endpoint streams normally with the
identity stub stages. -/
theorem c8_error_behavior (importsOk pedalboardOk voiceOk : Bool)
    (realRs : Stage → ℕ → List ℚ → List ℚ) (preset : String)
    (overrides : List (String × ℚ)) (sr : ℕ) (chunks : List (List ℕ)) :
    (importsOk = false →
      piper_tts_stream importsOk pedalboardOk voiceOk realRs preset overrides sr chunks =
        Except.error RouteErr.serviceUnavailable) ∧
    (importsOk = true → voiceOk = false →
      piper_tts_stream importsOk pedalboardOk voiceOk realRs preset overrides sr chunks =
        Except.error RouteErr.internalError) ∧
    (importsOk = true → voiceOk = true →
      piper_tts_stream importsOk pedalboardOk voiceOk realRs preset overrides sr chunks =
        Except.ok (gen (if pedalboardOk then realRs else stubRs)
          (build_board preset overrides) sr chunks)) := by
  refine ⟨?_, ?_, ?_⟩
  · intro h1
    subst h1
    simp [piper_tts_stream]
  · intro h1 h2
    subst h1
    subst h2
    simp [piper_tts_stream]
  · intro h1 h2
    subst h1
    subst h2
    simp [piper_tts_stream]

/-- C8 counterexample: with imports fine, a voice-acquisition failure
produces the uncaught internal error, which is not the 503 the claim
promises; and with the DSP library absent (stub stages) the endpoint
does not error at all but emits the full stream. -/
theorem c8_error_counterexample :
    piper_tts_stream true true false stubRs "wizard" [] 22050 [] =
      Except.error RouteErr.internalError ∧
    (Except.error RouteErr.internalError ≠
      (Except.error RouteErr.serviceUnavailable : Except RouteErr (List (List ℕ)))) ∧
    piper_tts_stream true false true stubRs "wizard" [] 22050 [[0, 0]] =
      Except.ok (gen stubRs (build_board "wizard" []) 22050 [[0, 0]]) := by
  refine ⟨by simp [piper_tts_stream], by simp, by simp [piper_tts_stream]⟩

/-- Witness for the amended C8 at concrete flag values. -/
theorem c8_error_behavior_witness :
    piper_tts_stream false true true stubRs "robot" [] 22050 [] =
      Except.error RouteErr.serviceUnavailable ∧
    piper_tts_stream true true false stubRs "robot" [] 22050 [] =
      Except.error RouteErr.internalError ∧
    piper_tts_stream true true true stubRs "robot" [] 22050 [] =
      Except.ok (gen (if true then stubRs else stubRs)
        (build_board "robot" []) 22050 []) := by
  refine ⟨(c8_error_behavior false true true stubRs "robot" [] 22050 []).1 rfl,
    (c8_error_behavior true true false stubRs "robot" [] 22050 []).2.1 rfl rfl,
    (c8_error_behavior true true true stubRs "robot" [] 22050 []).2.2 rfl rfl⟩

